import Mathlib

/-
Verification of the sitemap crawler (the concurrent revision of main.go:
the one with the worker pool, the per-worker job channel, the visited
sync.Map, the ignoredExtensions filter and the stats goroutine).

The embedding translates, from the Go source:
  - the URL machinery it uses from net/url (Parse, ResolveReference,
    URL.String) and from the path package (path.Ext), restricted to the
    behaviour the crawler exercises: percent-escaping, userinfo
    validation, ForceQuery and host zones are not modelled, and
    case-insensitive comparison is ASCII folding (strings.EqualFold and
    strings.ToLower agree with this on ASCII input);
  - resolveURL, isSameDomain, ignoredExtensions;
  - the worker loop of buildSitemap, in three forms that share the
    per-link body linkStep: a per-job event trace (workerEvents), a
    deterministic work-list executor (crawlLoop / buildSitemap) used for
    concrete scenarios, and a nondeterministic small-step machine
    (MStep) quantifying over all worker schedules;
  - a channel-level machine (stepWorker / successors) that models the
    bounded jobs channel of capacity numWorkers, used to analyse
    blocking submissions.

The network fetch (getAndParseLinks) is an external collaborator: it is
modelled as an oracle of type String -> Option (List Link), where none
is any fetch or parse failure (network error, non-2xx status, non-HTML
content type).
-/

namespace Sitemap

/-! ## ASCII string helpers (models of the strings package functions used) -/

def isAlphaChar (c : Char) : Bool :=
  ('a' ≤ c && c ≤ 'z') || ('A' ≤ c && c ≤ 'Z')

def isDigitChar (c : Char) : Bool :=
  '0' ≤ c && c ≤ '9'

/-- ASCII lower-casing of one character, as strings.ToLower does on ASCII. -/
def lcChar (c : Char) : Char :=
  if 'A' ≤ c && c ≤ 'Z' then Char.ofNat (c.toNat + 32) else c

/-- Model of strings.ToLower, restricted to ASCII folding. -/
def lowerStr (s : String) : String :=
  String.mk (s.data.map lcChar)

/-- Model of strings.HasPrefix: strStarts p s is true when p is a prefix of s. -/
def strStarts (p s : String) : Bool :=
  List.isPrefixOf p.data s.data

/-- Model of strings.Contains for a one-character needle. -/
def strContainsChar (s : String) (c : Char) : Bool :=
  s.data.contains c

/-- Model of strings.EqualFold, restricted to ASCII folding. -/
def eqFold (s t : String) : Bool :=
  lowerStr s == lowerStr t

/-- Model of strings.Cut at the first occurrence of a character:
returns the part before and the part after; the second component is
empty when the character is absent. -/
def cutCharAux (c : Char) : List Char → List Char → List Char × List Char
  | [], acc => (acc.reverse, [])
  | x :: xs, acc => if x = c then (acc.reverse, xs) else cutCharAux c xs (x :: acc)

def cutChar (s : String) (c : Char) : String × String :=
  let p := cutCharAux c s.data []
  (String.mk p.1, String.mk p.2)

/-- Like cutChar but the second component keeps the separator, matching
the authority split in net/url (authority[:i], authority[i:]). The
second component is empty when the character is absent. -/
def cutCharKeepAux (c : Char) : List Char → List Char → List Char × List Char
  | [], acc => (acc.reverse, [])
  | x :: xs, acc => if x = c then (acc.reverse, x :: xs) else cutCharKeepAux c xs (x :: acc)

def cutCharKeep (s : String) (c : Char) : String × String :=
  let p := cutCharKeepAux c s.data []
  (String.mk p.1, String.mk p.2)

/-- Split at the last occurrence of a character: none when absent,
otherwise the parts before and after the separator. -/
def splitAtLastAux (c : Char) : List Char → Option (List Char × List Char)
  | [] => none
  | x :: xs =>
    match splitAtLastAux c xs with
    | some (pre, post) => some (x :: pre, post)
    | none => if x = c then some ([], xs) else none

def splitAtLastChar (s : String) (c : Char) : Option (String × String) :=
  match splitAtLastAux c s.data with
  | none => none
  | some (pre, post) => some (String.mk pre, String.mk post)

/-- Split on every occurrence of a character, as iterated strings.Cut
does in resolvePath; the result is always nonempty. -/
def splitCharAux (c : Char) : List Char → List Char → List String
  | [], acc => [String.mk acc.reverse]
  | x :: xs, acc =>
    if x = c then String.mk acc.reverse :: splitCharAux c xs []
    else splitCharAux c xs (x :: acc)

def splitSlash (s : String) : List String :=
  splitCharAux '/' s.data []

def joinSlash : List String → String
  | [] => ""
  | [x] => x
  | x :: xs => x ++ "/" ++ joinSlash xs

/-- Model of path.Ext: the suffix of the final slash-separated element
starting at its final dot, or empty when that element has no dot. -/
def extFromRev : List Char → List Char → String
  | [], _ => ""
  | c :: rest, acc =>
    if c = '/' then ""
    else if c = '.' then String.mk ('.' :: acc)
    else extFromRev rest (c :: acc)

def pathExt (p : String) : String :=
  extFromRev p.data.reverse []

/-! ## Model of net/url

GoURL mirrors the url.URL fields the crawler reads or writes: Scheme,
Opaque (spelled opq below), Host, Path, RawQuery (spelled query) and
Fragment. User, OmitHost, RawPath, RawFragment and ForceQuery are not
modelled; percent-escaping is the identity. -/

structure GoURL where
  scheme : String
  opq : String
  host : String
  path : String
  query : String
  fragment : String
deriving DecidableEq, Repr

/-- Control bytes make url.Parse fail. -/
def containsCTL (s : String) : Bool :=
  s.data.any (fun c => c.toNat < 0x20 || c.toNat == 0x7f)

inductive SchemeOut
  | bad
  | non
  | found (scheme rest : String)

/-- Model of net/url getScheme: a scheme is an initial alpha character
followed by alphanumerics or plus, minus, dot, ended by a colon. A
leading colon is an error; any other character before a colon means the
string has no scheme. -/
def getSchemeAux : List Char → List Char → SchemeOut
  | [], _ => SchemeOut.non
  | c :: cs, acc =>
    if isAlphaChar c then getSchemeAux cs (acc ++ [c])
    else if isDigitChar c || c == '+' || c == '-' || c == '.' then
      (if acc.isEmpty then SchemeOut.non else getSchemeAux cs (acc ++ [c]))
    else if c = ':' then
      (if acc.isEmpty then SchemeOut.bad else SchemeOut.found (String.mk acc) (String.mk cs))
    else SchemeOut.non

def getScheme (s : String) : SchemeOut :=
  getSchemeAux s.data []

/-- Model of validOptionalPort: empty, or a colon followed by digits only. -/
def validOptPort (port : String) : Bool :=
  match port.data with
  | [] => true
  | c :: rest => c == ':' && rest.all isDigitChar

/-- Characters url.Parse accepts unescaped in a host component
(alphanumerics, the RFC 3986 unreserved marks and sub-delims, plus the
bracket, angle-bracket, quote and colon characters, and all non-ASCII).
Percent-escapes are not modelled: a percent sign is rejected. -/
def legalHostChar (c : Char) : Bool :=
  0x80 ≤ c.toNat || isAlphaChar c || isDigitChar c ||
  [ '-', '.', '_', '~', '!', '$', '&', Char.ofNat 39, '(', ')', '*', '+', ',',
    ';', '=', ':', '[', ']', '<', '>', Char.ofNat 34 ].contains c

/-- Model of parseHost: bracketed hosts need a closing bracket and a
valid optional port after it; otherwise anything after the last colon
must be a valid port; all characters must be legal host characters. -/
def parseHost (h : String) : Option String :=
  let charsOK := h.data.all legalHostChar
  if strStarts "[" h then
    match splitAtLastChar h ']' with
    | none => none
    | some (_, post) => if validOptPort ((if post = "" then "" else ":") ++ post) && charsOK then some h else none
  else
    match splitAtLastChar h ':' with
    | some (_, post) => if validOptPort (":" ++ post) && charsOK then some h else none
    | none => if charsOK then some h else none

/-- Model of parseAuthority: userinfo before the last at-sign is
dropped without validation (deviation: Go validates its characters),
the remainder is the host. -/
def parseAuthority (authority : String) : Option String :=
  match splitAtLastChar authority '@' with
  | none => parseHost authority
  | some (_, hostPart) => parseHost hostPart

/-- Model of url.parse on the fragment-free part of the input. -/
def urlParseNoFrag (s : String) : Option GoURL :=
  if containsCTL s then none
  else
    match getScheme s with
    | SchemeOut.bad => none
    | out =>
      let sp : String × String :=
        match out with
        | SchemeOut.found sc r => (sc, r)
        | _ => ("", s)
      let scheme := lowerStr sp.1
      let qcut := cutChar sp.2 '?'
      let rest0 := qcut.1
      let query := qcut.2
      if ¬ strStarts "/" rest0 ∧ scheme ≠ "" then
        some { scheme := scheme, opq := rest0, host := "", path := "", query := query, fragment := "" }
      else if ¬ strStarts "/" rest0 ∧ strContainsChar (cutChar rest0 '/').1 ':' then
        none
      else if strStarts "//" rest0 ∧ (scheme ≠ "" ∨ ¬ strStarts "///" rest0) then
        let acut := cutCharKeep (String.mk (rest0.data.drop 2)) '/'
        match parseAuthority acut.1 with
        | none => none
        | some host =>
          some { scheme := scheme, opq := "", host := host, path := acut.2, query := query, fragment := "" }
      else
        some { scheme := scheme, opq := "", host := "", path := rest0, query := query, fragment := "" }

/-- Model of url.Parse: split the fragment at the first hash sign,
parse the rest, reattach the fragment. -/
def urlParse (s : String) : Option GoURL :=
  let fcut := cutChar s '#'
  match urlParseNoFrag fcut.1 with
  | none => none
  | some u => some { u with fragment := fcut.2 }

/-- Base path up to and including its last slash, as base[:i+1] with
i = strings.LastIndex(base, "/"); empty when base has no slash. -/
def upToLastSlash (s : String) : String :=
  match splitAtLastChar s '/' with
  | none => ""
  | some (pre, _) => String.mk (pre.data ++ ['/'])

/-- The dot-segment removal loop of net/url resolvePath, carried out on
the slash components. The accumulator is kept reversed; the boolean is
the first flag of the Go loop; the final component is also returned so
the caller can add the trailing slash after a dot segment. -/
def rdsLoop : List String → List String → Bool → String → List String × String
  | [], dst, _, lastE => (dst, lastE)
  | e :: es, dst, first, _ =>
    if e = "." then rdsLoop es dst false e
    else if e = ".." then
      match dst with
      | [] => rdsLoop es [] true e
      | [_] => rdsLoop es [] true e
      | _ :: ds => rdsLoop es ds false e
    else rdsLoop es (e :: dst) first e

/-- Model of net/url resolvePath (merge then remove dot segments). -/
def resolvePath (base ref : String) : String :=
  let full :=
    if ref = "" then base
    else if ¬ strStarts "/" ref then upToLastSlash base ++ ref
    else ref
  if full = "" then ""
  else
    let out := rdsLoop (splitSlash full) [] true ""
    let r := "/" ++ joinSlash out.1.reverse ++ (if out.2 = "." ∨ out.2 = ".." then "/" else "")
    if strStarts "//" r then String.mk r.data.tail else r

/-- Model of URL.ResolveReference. -/
def resolveReference (u ref : GoURL) : GoURL :=
  let r0 := if ref.scheme = "" then { ref with scheme := u.scheme } else ref
  if ref.scheme ≠ "" ∨ ref.host ≠ "" then
    { r0 with path := resolvePath ref.path "" }
  else if ref.opq ≠ "" then
    { r0 with host := "", path := "" }
  else
    let r1 :=
      if ref.path = "" ∧ ref.query = "" then
        { r0 with query := u.query, fragment := if ref.fragment = "" then u.fragment else ref.fragment }
      else r0
    { r1 with host := u.host, path := resolvePath u.path ref.path }

/-- Model of URL.String (escaping, userinfo and the relative-path guard
against a leading colon segment are not modelled). -/
def urlToString (u : GoURL) : String :=
  let b1 := if u.scheme ≠ "" then u.scheme ++ ":" else ""
  let b2 :=
    if u.opq ≠ "" then b1 ++ u.opq
    else
      let bA :=
        if u.scheme ≠ "" ∨ u.host ≠ "" then
          (if u.host ≠ "" ∨ u.path ≠ "" then b1 ++ "//" ++ u.host else b1 ++ u.host)
        else b1
      let bB := if u.path ≠ "" ∧ ¬ strStarts "/" u.path ∧ u.host ≠ "" then bA ++ "/" else bA
      bB ++ u.path
  let b3 := if u.query ≠ "" then b2 ++ "?" ++ u.query else b2
  if u.fragment ≠ "" then b3 ++ "#" ++ u.fragment else b3

/-! ## The crawler (buildSitemap and its helpers) -/

/-- link.Link: an anchor with its href and collapsed text. -/
structure Link where
  href : String
  text : String
deriving DecidableEq, Repr

/-- The ignoredExtensions set of the source, as a list of keys. -/
def ignoredExtensions : List String :=
  [ ".txt", ".pdf", ".doc", ".docx", ".xls", ".xlsx",
    ".ppt", ".pptx", ".zip", ".rar", ".tar", ".gz",
    ".jpg", ".jpeg", ".png", ".gif", ".bmp", ".svg",
    ".ico", ".webp", ".mp3", ".mp4", ".avi", ".mov",
    ".wmv", ".flv", ".css", ".js", ".json", ".xml",
    ".rss", ".atom", ".webmanifest", ".map" ]

/-- getBaseURL: url.Parse with failures mapped to nil. -/
def getBaseURL (s : String) : Option GoURL :=
  urlParse s

/-- The shared tail of resolveURL: parse the href, resolve it against
the base, reject non-http(s) schemes, strip the fragment, print. -/
def resolveURLCore (base : GoURL) (href : String) : String :=
  match urlParse href with
  | none => ""
  | some rel =>
    let absU := resolveReference base rel
    if absU.scheme ≠ "http" ∧ absU.scheme ≠ "https" then ""
    else urlToString { absU with fragment := "" }

/-- resolveURL of the source: nil base or empty href give the empty
string; protocol-relative hrefs are rerouted through a copy of the base
whose Opaque field is the href; fragment-only hrefs, the mailto,
javascript, tel and data scheme prefixes, and any href containing a
colon without an http or https prefix, give the empty string; anything
else is resolved against the base. -/
def resolveURL (b : Option GoURL) (l : Link) : String :=
  match b with
  | none => ""
  | some base =>
    if l.href = "" then ""
    else
      let lowerHref := lowerStr l.href
      if strStarts "//" l.href then
        let newUrl : GoURL := { base with host := "", path := "", query := "", opq := l.href }
        match urlParse (urlToString newUrl) with
        | none => ""
        | some relUrl => resolveURLCore base (urlToString relUrl)
      else if strStarts "#" lowerHref || strStarts "mailto:" lowerHref ||
          strStarts "javascript:" lowerHref || strStarts "tel:" lowerHref ||
          strStarts "data:" lowerHref ||
          (strContainsChar lowerHref ':' && !strStarts "http:" lowerHref && !strStarts "https:" lowerHref) then
        ""
      else resolveURLCore base l.href

/-- isSameDomain of the source: parse both, compare hosts with
strings.EqualFold; a parse failure on either side gives false. -/
def isSameDomain (startStr targetStr : String) : Bool :=
  match urlParse startStr, urlParse targetStr with
  | some a, some b => eqFold a.host b.host
  | _, _ => false

/-- A (url, depth) crawl job. -/
structure Job where
  url : String
  depth : Nat
deriving DecidableEq, Repr

/-- The shared mutable crawl state: the visited set (sync.Map, kept as
the list of stored keys) and the output list finalURLs. -/
structure CrawlState where
  visited : List String
  output : List String
deriving DecidableEq, Repr

/-- The guard chain of the worker loop body for one link (lines of the
source from abs := resolveURL to visited.LoadOrStore): the admitted
absolute URL, or none when the link is skipped. -/
def linkAccept (start : String) (base : GoURL) (l : Link) (visited : List String) : Option String :=
  let abs := resolveURL (some base) l
  if abs = "" then none
  else
    match urlParse abs with
    | none => none
    | some parsedAbs =>
      let ext := lowerStr (pathExt parsedAbs.path)
      if ignoredExtensions.contains ext ∧ ext ≠ "" then none
      else if isSameDomain start abs then
        (if abs ∈ visited then none else some abs)
      else none

/-- One iteration of the link loop: on first admission the URL is
stored in the visited set, appended to the output, and a job at
depth + 1 is submitted. The LoadOrStore call and the mutex-guarded
append are modelled as one atomic step; only the LoadOrStore winner
performs the append and the submit. -/
def linkStep (start : String) (base : GoURL) (l : Link) (depth : Nat) (cs : CrawlState) :
    CrawlState × List Job :=
  match linkAccept start base l cs.visited with
  | none => (cs, [])
  | some abs =>
    ({ visited := abs :: cs.visited, output := cs.output ++ [abs] },
     [{ url := abs, depth := depth + 1 }])

def processLinks (start : String) (base : GoURL) (depth : Nat) :
    List Link → CrawlState → CrawlState × List Job
  | [], cs => (cs, [])
  | l :: rest, cs =>
    let r := linkStep start base l depth cs
    let r2 := processLinks start base depth rest r.1
    (r2.1, r.2 ++ r2.2)

/-- The crawl configuration and the fetch collaborator. -/
structure CrawlCfg where
  startURL : String
  maxDepth : Int
  fetch : String → Option (List Link)

/-- One full job as the worker body runs it: fetch (failure contributes
nothing), then the depth ceiling (j.depth+1 >= maxDepth skips the whole
link loop), then the base parse, then the link loop. Returns the
updated state and the submitted jobs. -/
def processJob (cfg : CrawlCfg) (cs : CrawlState) (j : Job) : CrawlState × List Job :=
  match cfg.fetch j.url with
  | none => (cs, [])
  | some links =>
    if (j.depth : Int) + 1 ≥ cfg.maxDepth then (cs, [])
    else
      match getBaseURL j.url with
      | none => (cs, [])
      | some base => processLinks cfg.startURL base j.depth links cs

/-- Deterministic work-list executor: one schedule of the worker pool
(jobs processed in FIFO order, one at a time). The fuel only bounds the
number of processed jobs; in every scenario below it is large enough
for the queue to drain. -/
def crawlLoop (cfg : CrawlCfg) : Nat → CrawlState → List Job → CrawlState
  | 0, cs, _ => cs
  | _ + 1, cs, [] => cs
  | fuel + 1, cs, j :: rest =>
    crawlLoop cfg fuel (processJob cfg cs j).1 (rest ++ (processJob cfg cs j).2)

/-- buildSitemap of the source: the start URL is stored in the visited
set and appended to finalURLs before any worker runs, the seed job is
submitted at depth 0, the workers drain the queue, and the function
returns (finalURLs, nil) - it has no error return path at all. -/
def buildSitemap (startURL : String) (maxDepth : Int) (fetch : String → Option (List Link))
    (fuel : Nat) : List String × Option String :=
  let cfg : CrawlCfg := { startURL := startURL, maxDepth := maxDepth, fetch := fetch }
  ((crawlLoop cfg fuel { visited := [startURL], output := [startURL] }
      [{ url := startURL, depth := 0 }]).output,
   none)

/-! ## Per-job event traces (submit and complete ordering) -/

/-- The dispatcher-visible events of one worker iteration: submit is
the tasks.Add(1) increment together with the send into the jobs
channel; complete is the tasks.Done() decrement. -/
inductive WEvent
  | submit (j : Job)
  | complete
deriving DecidableEq, Repr

/-- The events of the link loop: a submit for every newly admitted
link, in loop order, and nothing else. -/
def linkLoopEvents (start : String) (base : GoURL) (depth : Nat) :
    List Link → CrawlState → List WEvent
  | [], _ => []
  | l :: rest, cs =>
    (linkStep start base l depth cs).2.map WEvent.submit ++
      linkLoopEvents start base depth rest (linkStep start base l depth cs).1

/-- The events of one worker iteration, branch by branch as in the
source: the fetch-failure path, the depth-ceiling path and the nil-base
path each run tasks.Done() and continue; the normal path runs the link
loop and then tasks.Done(). -/
def workerEvents (cfg : CrawlCfg) (cs : CrawlState) (j : Job) : List WEvent :=
  match cfg.fetch j.url with
  | none => [WEvent.complete]
  | some links =>
    if (j.depth : Int) + 1 ≥ cfg.maxDepth then [WEvent.complete]
    else
      match getBaseURL j.url with
      | none => [WEvent.complete]
      | some base => linkLoopEvents cfg.startURL base j.depth links cs ++ [WEvent.complete]

/-! ## Nondeterministic small-step machine over all worker schedules

A worker that has passed the fetch, ceiling and base checks of a job is
in flight, holding the remaining links of its loop. Steps pick any
queued job or any in-flight worker, so every interleaving of the pool
at link granularity is covered; each link body is one step, matching
the atomicity of LoadOrStore with the append guarded by it. -/

structure Worker where
  depth : Nat
  base : GoURL
  rem : List Link
deriving DecidableEq, Repr

structure MState where
  cs : CrawlState
  queue : List Job
  inflight : List Worker
deriving DecidableEq, Repr

/-- The state before any worker runs: the start URL already stored in
the visited set and appended to the output, the seed job queued. -/
def initM (cfg : CrawlCfg) : MState :=
  { cs := { visited := [cfg.startURL], output := [cfg.startURL] },
    queue := [{ url := cfg.startURL, depth := 0 }],
    inflight := [] }

inductive MStep (cfg : CrawlCfg) : MState → MState → Prop
  | pickRun (s : MState) (j : Job) (links : List Link) (base : GoURL)
      (hj : j ∈ s.queue) (hf : cfg.fetch j.url = some links)
      (hd : ¬ ((j.depth : Int) + 1 ≥ cfg.maxDepth)) (hb : getBaseURL j.url = some base) :
      MStep cfg s { cs := s.cs, queue := s.queue.erase j,
                    inflight := { depth := j.depth, base := base, rem := links } :: s.inflight }
  | pickDrop (s : MState) (j : Job)
      (hj : j ∈ s.queue)
      (hskip : cfg.fetch j.url = none ∨ ((j.depth : Int) + 1 ≥ cfg.maxDepth) ∨ getBaseURL j.url = none) :
      MStep cfg s { cs := s.cs, queue := s.queue.erase j, inflight := s.inflight }
  | doLink (s : MState) (w : Worker) (l : Link) (rem2 : List Link)
      (hw : w ∈ s.inflight) (hrem : w.rem = l :: rem2) :
      MStep cfg s { cs := (linkStep cfg.startURL w.base l w.depth s.cs).1,
                    queue := s.queue ++ (linkStep cfg.startURL w.base l w.depth s.cs).2,
                    inflight := { depth := w.depth, base := w.base, rem := rem2 } :: s.inflight.erase w }
  | finishJob (s : MState) (w : Worker)
      (hw : w ∈ s.inflight) (hrem : w.rem = []) :
      MStep cfg s { cs := s.cs, queue := s.queue, inflight := s.inflight.erase w }

/-- Reachability from the seeded initial state under any schedule. -/
abbrev ReachM (cfg : CrawlCfg) (s : MState) : Prop :=
  Relation.ReflTransGen (MStep cfg) (initM cfg) s

/-! ## Channel-level machine for the bounded jobs channel

buildSitemap creates jobs := make(chan job, numWorkers) and the workers
themselves send follow-on jobs into it. This machine keeps the channel
buffer explicit: a send only proceeds while the buffer holds fewer than
cap jobs, otherwise the sending worker blocks. The tasks field is the
WaitGroup counter; the closer goroutine closes the channel only when it
reaches zero, so a state without successors whose counter is nonzero is
a deadlock of the whole pool. -/

inductive WSt
  | idle
  | working (depth : Nat) (base : GoURL) (rem : List Link)
  | blockedSend (j : Job) (depth : Nat) (base : GoURL) (rem : List Link)
deriving DecidableEq, Repr

structure ChanState where
  cs : CrawlState
  buffer : List Job
  workers : List WSt
  tasks : Int
deriving DecidableEq, Repr

/-- The pre-loop checks a worker runs on a received job: none means the
job completes immediately (fetch failure, depth ceiling or nil base). -/
def recvResult (cfg : CrawlCfg) (j : Job) : Option Worker :=
  match cfg.fetch j.url with
  | none => none
  | some links =>
    if (j.depth : Int) + 1 ≥ cfg.maxDepth then none
    else
      match getBaseURL j.url with
      | none => none
      | some base => some { depth := j.depth, base := base, rem := links }

/-- The possible move of one worker: receive from the buffer when idle,
run one link body when working (the admission happens before the send;
the send blocks when the buffer is full), retry a blocked send, or call
tasks.Done() when the loop is over. -/
def stepWorker (cfg : CrawlCfg) (cap : Nat) (s : ChanState) :
    WSt → Option (WSt × List Job × CrawlState × Int)
  | WSt.idle =>
    match s.buffer with
    | [] => none
    | j :: rest =>
      match recvResult cfg j with
      | none => some (WSt.idle, rest, s.cs, s.tasks - 1)
      | some w => some (WSt.working w.depth w.base w.rem, rest, s.cs, s.tasks)
  | WSt.working _ _ [] => some (WSt.idle, s.buffer, s.cs, s.tasks - 1)
  | WSt.working d base (l :: rem) =>
    let r := linkStep cfg.startURL base l d s.cs
    match r.2 with
    | [] => some (WSt.working d base rem, s.buffer, r.1, s.tasks)
    | j2 :: _ =>
      if s.buffer.length < cap then
        some (WSt.working d base rem, s.buffer ++ [j2], r.1, s.tasks + 1)
      else
        some (WSt.blockedSend j2 d base rem, s.buffer, r.1, s.tasks + 1)
  | WSt.blockedSend j2 d base rem =>
    if s.buffer.length < cap then
      some (WSt.working d base rem, s.buffer ++ [j2], s.cs, s.tasks)
    else none

def successorsAux (cfg : CrawlCfg) (cap : Nat) (s : ChanState) : Nat → List WSt → List ChanState
  | _, [] => []
  | i, w :: ws =>
    (match stepWorker cfg cap s w with
     | none => []
     | some (w2, buf2, cs2, t2) =>
       [{ cs := cs2, buffer := buf2, workers := s.workers.set i w2, tasks := t2 }]) ++
    successorsAux cfg cap s (i + 1) ws

/-- Every state one scheduler step away. -/
def successors (cfg : CrawlCfg) (cap : Nat) (s : ChanState) : List ChanState :=
  successorsAux cfg cap s 0 s.workers

/-- The state right after buildSitemap seeds the crawl: start URL in
the visited set and the output, the seed job in the buffer (the seeding
send succeeds since cap = numWorkers is at least one), n idle workers,
the WaitGroup counter at one for the seed job. -/
def chanInit (cfg : CrawlCfg) (n : Nat) : ChanState :=
  { cs := { visited := [cfg.startURL], output := [cfg.startURL] },
    buffer := [{ url := cfg.startURL, depth := 0 }],
    workers := List.replicate n WSt.idle,
    tasks := 1 }

/-! ## Concrete sites used in scenarios -/

/-- A fetch oracle on which every request fails. -/
def noFetch : String → Option (List Link) := fun _ => none

/-- The linear chain A -> B -> C -> D on host a.com. -/
def chainFetch : String → Option (List Link) := fun u =>
  if u = "http://a.com/" then some [{ href := "/b", text := "" }]
  else if u = "http://a.com/b" then some [{ href := "/c", text := "" }]
  else if u = "http://a.com/c" then some [{ href := "/d", text := "" }]
  else if u = "http://a.com/d" then some []
  else none

/-- A page linking to style.css and /about. -/
def cssFetch : String → Option (List Link) := fun u =>
  if u = "http://a.com/" then some [{ href := "style.css", text := "" }, { href := "/about", text := "" }]
  else if u = "http://a.com/about" then some []
  else none

/-- A site whose root links to a page whose fetch fails. -/
def failBFetch : String → Option (List Link) := fun u =>
  if u = "http://a.com/" then some [{ href := "/b", text := "" }] else none

/-- A root with two fresh same-host links, used for the channel model. -/
def twoLinkFetch : String → Option (List Link) := fun u =>
  if u = "http://a.com/" then some [{ href := "/b", text := "" }, { href := "/c", text := "" }]
  else some []

/-- A configuration whose every fetch fails, for witness instances. -/
def cfgNull : CrawlCfg :=
  { startURL := "http://a.com/", maxDepth := 3, fetch := noFetch }

/-! ## Lemmas on the link loop and the executor -/

theorem linkLoopEvents_submits (start : String) (base : GoURL) (d : Nat) :
    ∀ (ls : List Link) (cs : CrawlState) (e : WEvent),
      e ∈ linkLoopEvents start base d ls cs → ∃ j2, e = WEvent.submit j2 := by
  intro ls
  induction ls with
  | nil => intro cs e he; simp [linkLoopEvents] at he
  | cons l rest ih =>
    intro cs e he
    simp only [linkLoopEvents, List.mem_append, List.mem_map] at he
    rcases he with ⟨j2, _, rfl⟩ | he
    · exact ⟨j2, rfl⟩
    · exact ih _ _ he

theorem linkStep_fst_output (start : String) (base : GoURL) (l : Link) (depth : Nat)
    (cs : CrawlState) :
    ∃ t, ((linkStep start base l depth cs).1).output = cs.output ++ t := by
  unfold linkStep
  cases h : linkAccept start base l cs.visited with
  | none => exact ⟨[], by simp⟩
  | some abs => exact ⟨[abs], rfl⟩

theorem processLinks_fst_output (start : String) (base : GoURL) (depth : Nat) :
    ∀ (ls : List Link) (cs : CrawlState),
      ∃ t, ((processLinks start base depth ls cs).1).output = cs.output ++ t := by
  intro ls
  induction ls with
  | nil => intro cs; exact ⟨[], by simp [processLinks]⟩
  | cons l rest ih =>
    intro cs
    obtain ⟨t1, h1⟩ := linkStep_fst_output start base l depth cs
    obtain ⟨t2, h2⟩ := ih (linkStep start base l depth cs).1
    refine ⟨t1 ++ t2, ?_⟩
    show ((processLinks start base depth rest (linkStep start base l depth cs).1).1).output = _
    rw [h2, h1, List.append_assoc]

theorem processJob_fst_output (cfg : CrawlCfg) (cs : CrawlState) (j : Job) :
    ∃ t, ((processJob cfg cs j).1).output = cs.output ++ t := by
  unfold processJob
  cases cfg.fetch j.url with
  | none => exact ⟨[], by simp⟩
  | some links =>
    dsimp only
    by_cases hd : (j.depth : Int) + 1 ≥ cfg.maxDepth
    · rw [if_pos hd]; exact ⟨[], by simp⟩
    · rw [if_neg hd]
      cases getBaseURL j.url with
      | none => exact ⟨[], by simp⟩
      | some base => exact processLinks_fst_output cfg.startURL base j.depth links cs

theorem crawlLoop_output (cfg : CrawlCfg) :
    ∀ (fuel : Nat) (cs : CrawlState) (q : List Job),
      ∃ t, (crawlLoop cfg fuel cs q).output = cs.output ++ t := by
  intro fuel
  induction fuel with
  | zero => intro cs q; exact ⟨[], by simp [crawlLoop]⟩
  | succ n ih =>
    intro cs q
    cases q with
    | nil => exact ⟨[], by simp [crawlLoop]⟩
    | cons j rest =>
      obtain ⟨t1, h1⟩ := processJob_fst_output cfg cs j
      obtain ⟨t2, h2⟩ := ih (processJob cfg cs j).1 (rest ++ (processJob cfg cs j).2)
      refine ⟨t1 ++ t2, ?_⟩
      show (crawlLoop cfg n (processJob cfg cs j).1 (rest ++ (processJob cfg cs j).2)).output = _
      rw [h2, h1, List.append_assoc]

/-! ## The admission invariant -/

/-- A URL string that would pass the extension filter of the worker
loop: it parses, and the lowercased extension of its path is not an
ignored one. Every URL the crawl admits beyond the seed satisfies
this. -/
def extOKb (u : String) : Bool :=
  match urlParse u with
  | none => false
  | some pu => ! (ignoredExtensions.contains (lowerStr (pathExt pu.path)))

theorem linkAccept_spec {start : String} {base : GoURL} {l : Link} {visited : List String}
    {abs : String} (h : linkAccept start base l visited = some abs) :
    abs ∉ visited ∧ extOKb abs = true := by
  simp only [linkAccept] at h
  split at h
  · exact absurd h (by simp)
  · split at h
    · exact absurd h (by simp)
    · rename_i parsedAbs heq
      split at h
      · exact absurd h (by simp)
      · rename_i hext
        split at h
        · split at h
          · exact absurd h (by simp)
          · rename_i hdom hvis
            injection h with h2
            subst h2
            refine ⟨hvis, ?_⟩
            unfold extOKb
            rw [heq]
            dsimp only
            have hemp : ignoredExtensions.contains "" = false := by decide
            by_cases hE : lowerStr (pathExt parsedAbs.path) = ""
            · rw [hE, hemp]; rfl
            · have hc : ¬ ignoredExtensions.contains (lowerStr (pathExt parsedAbs.path)) = true :=
                fun hc => hext ⟨hc, hE⟩
              cases hcc : ignoredExtensions.contains (lowerStr (pathExt parsedAbs.path)) with
              | false => rfl
              | true => exact absurd hcc hc
        · exact absurd h (by simp)

/-- The invariant the crawl maintains under every schedule: the output
has no duplicate, the output is a subset of the visited set, the output
starts with the seeded start URL, every non-seed output entry passed
the extension filter, and so did the URL of every queued job. -/
def goodState (cfg : CrawlCfg) (s : MState) : Prop :=
  s.cs.output.Nodup ∧
  (∀ u, u ∈ s.cs.output → u ∈ s.cs.visited) ∧
  (∃ rest, s.cs.output = cfg.startURL :: rest) ∧
  (∀ u, u ∈ s.cs.output → u ≠ cfg.startURL → extOKb u = true) ∧
  (∀ j, j ∈ s.queue → j.url = cfg.startURL ∨ extOKb j.url = true)

theorem initM_good (cfg : CrawlCfg) : goodState cfg (initM cfg) := by
  refine ⟨by simp [initM], ?_, ⟨[], rfl⟩, ?_, ?_⟩
  · intro u hu
    simpa [initM] using hu
  · intro u hu hne
    simp [initM] at hu
    exact absurd hu hne
  · intro j hj
    simp [initM] at hj
    exact Or.inl (by rw [hj])

theorem mstep_good (cfg : CrawlCfg) {s t : MState} (hg : goodState cfg s) (h : MStep cfg s t) :
    goodState cfg t := by
  obtain ⟨h1, h2, h3, h4, h5⟩ := hg
  cases h with
  | pickRun j links base hj hf hd hb =>
    exact ⟨h1, h2, h3, h4, fun j2 hj2 => h5 j2 (List.erase_subset _ _ hj2)⟩
  | pickDrop j hj hskip =>
    exact ⟨h1, h2, h3, h4, fun j2 hj2 => h5 j2 (List.erase_subset _ _ hj2)⟩
  | finishJob w hw hrem =>
    exact ⟨h1, h2, h3, h4, h5⟩
  | doLink w l rem2 hw hrem =>
    cases hacc : linkAccept cfg.startURL w.base l s.cs.visited with
    | none =>
      have hls : linkStep cfg.startURL w.base l w.depth s.cs = (s.cs, []) := by
        unfold linkStep; rw [hacc]
      rw [hls]
      exact ⟨h1, h2, h3, h4, fun j2 hj2 => h5 j2 (by simpa using hj2)⟩
    | some abs =>
      have hls : linkStep cfg.startURL w.base l w.depth s.cs =
          ({ visited := abs :: s.cs.visited, output := s.cs.output ++ [abs] },
           [{ url := abs, depth := w.depth + 1 }]) := by
        unfold linkStep; rw [hacc]
      obtain ⟨hnv, hext⟩ := linkAccept_spec hacc
      rw [hls]
      dsimp only
      have habsOut : abs ∉ s.cs.output := fun hm => hnv (h2 abs hm)
      refine ⟨?_, ?_, ?_, ?_, ?_⟩
      · rw [List.nodup_append]
        exact ⟨h1, List.nodup_singleton abs, fun a ha hb => by
          rw [List.mem_singleton] at hb; subst hb; exact habsOut ha⟩
      · intro u hu
        rcases List.mem_append.mp hu with hu | hu
        · exact List.mem_cons_of_mem _ (h2 u hu)
        · rw [List.mem_singleton] at hu
          subst hu
          exact List.mem_cons_self _ _
      · obtain ⟨rest, hr⟩ := h3
        exact ⟨rest ++ [abs], by rw [hr]; rfl⟩
      · intro u hu hne
        rcases List.mem_append.mp hu with hu | hu
        · exact h4 u hu hne
        · rw [List.mem_singleton] at hu
          subst hu
          exact hext
      · intro j2 hj2
        rcases List.mem_append.mp hj2 with hj2 | hj2
        · exact h5 j2 hj2
        · rw [List.mem_singleton] at hj2
          subst hj2
          exact Or.inr hext

theorem reachM_good (cfg : CrawlCfg) {s : MState} (h : ReachM cfg s) : goodState cfg s := by
  induction h with
  | refl => exact initM_good cfg
  | tail _ hbc ih => exact mstep_good cfg ih hbc

/-! ## Claim theorems -/

/-- C1: for every job a worker processes, the event trace of the
iteration is a list of submit events followed by exactly one complete
event: every submission (the counter increment together with the
enqueue) happens before the single completion call, and the completion
call happens exactly once on every path, the fetch-failure, the
depth-ceiling and the nil-base paths included. -/
theorem claim1_submits_before_complete (cfg : CrawlCfg) (cs : CrawlState) (j : Job) :
    ∃ es, workerEvents cfg cs j = es ++ [WEvent.complete] ∧
      ∀ e ∈ es, ∃ j2, e = WEvent.submit j2 := by
  unfold workerEvents
  cases hf : cfg.fetch j.url with
  | none => exact ⟨[], rfl, by simp⟩
  | some links =>
    dsimp only
    by_cases hd : (j.depth : Int) + 1 ≥ cfg.maxDepth
    · rw [if_pos hd]; exact ⟨[], rfl, by simp⟩
    · rw [if_neg hd]
      cases hb : getBaseURL j.url with
      | none => exact ⟨[], rfl, by simp⟩
      | some base =>
        exact ⟨linkLoopEvents cfg.startURL base j.depth links cs, rfl,
          fun e he => linkLoopEvents_submits cfg.startURL base j.depth links cs e he⟩

/-- C1 witness: on a concrete job the trace ends with the completion
event. -/
theorem claim1_witness :
    (workerEvents cfgNull { visited := ["u"], output := ["u"] } { url := "u", depth := 0 }).getLast?
      = some WEvent.complete := by
  obtain ⟨es, he, -⟩ :=
    claim1_submits_before_complete cfgNull { visited := ["u"], output := ["u"] } { url := "u", depth := 0 }
  rw [he]
  simp

/-- C2: evaluation of the code at the failing input. On the linear
chain A -> B -> C -> D with maxDepth = 2 the output is [A, B], not the
[A, B, C] the claim states: the depth-ceiling job for B is fetched (the
oracle returns the link to C) yet processJob discards its links
entirely, admitting nothing to the output. With maxDepth = 1 the
output is [A] alone, against the stated intent (the README of this
revision says depth 1 includes the pages linked from the start URL). -/
theorem claim2_depth_ceiling_eval :
    buildSitemap "http://a.com/" 2 chainFetch 10 = (["http://a.com/", "http://a.com/b"], none) ∧
    buildSitemap "http://a.com/" 1 chainFetch 10 = (["http://a.com/"], none) ∧
    chainFetch "http://a.com/b" = some [{ href := "/c", text := "" }] ∧
    processJob { startURL := "http://a.com/", maxDepth := 2, fetch := chainFetch }
        { visited := ["http://a.com/b", "http://a.com/"], output := ["http://a.com/", "http://a.com/b"] }
        { url := "http://a.com/b", depth := 1 } =
      ({ visited := ["http://a.com/b", "http://a.com/"], output := ["http://a.com/", "http://a.com/b"] }, []) := by
  exact ⟨by decide, by decide, by decide, by decide⟩

/-- C5 counterexample: the start string consisting of a lone colon does
not parse, yet buildSitemap does not fail on it: it returns the list
holding that string and a nil error, against the claimed InvalidInput
failure. -/
theorem claim5_counterexample :
    urlParse ":" = none ∧
    buildSitemap ":" 3 noFetch 3 = ([":"], none) := by
  exact ⟨by decide, by decide⟩

/-- C5 amended: buildSitemap always succeeds, for every start URL —
parsable or not. The error component is nil on every input, and the
start URL is still the first element of the output. There is no
InvalidInput detection and no abort path. -/
theorem claim5_no_error_path (start : String) (maxDepth : Int)
    (fetch : String → Option (List Link)) (fuel : Nat) :
    (buildSitemap start maxDepth fetch fuel).2 = none ∧
    (buildSitemap start maxDepth fetch fuel).1.head? = some start := by
  refine ⟨rfl, ?_⟩
  obtain ⟨t, ht⟩ := crawlLoop_output
    { startURL := start, maxDepth := maxDepth, fetch := fetch } fuel
    { visited := [start], output := [start] } [{ url := start, depth := 0 }]
  show (crawlLoop _ fuel _ _).output.head? = some start
  rw [ht]
  rfl

/-- C5 witness: the amended theorem at a concrete input. -/
theorem claim5_witness :
    (buildSitemap "http://a.com/" 3 noFetch 2).2 = none ∧
    (buildSitemap "http://a.com/" 3 noFetch 2).1.head? = some "http://a.com/" :=
  claim5_no_error_path "http://a.com/" 3 noFetch 2

/-- C6: isSameDomain is true exactly when both URL strings parse and
their host components agree under case-insensitive comparison; a parse
failure on either side gives false, and scheme and path play no part. -/
theorem claim6_same_host_iff (s t : String) :
    isSameDomain s t = true ↔
      ∃ a b, urlParse s = some a ∧ urlParse t = some b ∧ eqFold a.host b.host = true := by
  constructor
  · intro h
    unfold isSameDomain at h
    cases hs : urlParse s with
    | none => rw [hs] at h; cases h
    | some a =>
      cases ht : urlParse t with
      | none => rw [hs, ht] at h; cases h
      | some b =>
        rw [hs, ht] at h
        exact ⟨a, b, rfl, rfl, h⟩
  · rintro ⟨a, b, ha, hb, hf⟩
    unfold isSameDomain
    rw [ha, hb]
    exact hf

/-- C6 witness: host comparison at concrete inputs, through the
theorem, with differing schemes, paths and letter case. -/
theorem claim6_witness : isSameDomain "http://A.com/x" "https://a.com/y" = true :=
  (claim6_same_host_iff "http://A.com/x" "https://a.com/y").mpr
    ⟨{ scheme := "http", opq := "", host := "A.com", path := "/x", query := "", fragment := "" },
     { scheme := "https", opq := "", host := "a.com", path := "/y", query := "", fragment := "" },
     by decide, by decide, by decide⟩

/-- C7 counterexample: the reference /doc/a:b has its only colon after
the first slash, so by the claim it is not rejected by the scheme rule
and would resolve to http://example.com/doc/a:b; the code rejects it
(the source tests strings.Contains(lowerHref, ":") over the whole
string, not only before the first slash). The same href without the
colon resolves normally. -/
theorem claim7_counterexample :
    resolveURL (urlParse "http://example.com/") { href := "/doc/a:b", text := "" } = "" ∧
    resolveURL (urlParse "http://example.com/") { href := "/doc/ab", text := "" }
      = "http://example.com/doc/ab" := by
  exact ⟨by decide, by decide⟩

/-- C7 amended: resolveURL is absent for every fragment-only reference,
for the mailto, javascript, tel and data scheme prefixes, and for every
other non-protocol-relative reference containing a colon anywhere in
the string (not only before the first slash) whose lowercased form does
not start with http: or https:. -/
theorem claim7_foreign_scheme_reject (b : Option GoURL) (l : Link)
    (h1 : strStarts "//" l.href = false)
    (h2 : (strStarts "#" (lowerStr l.href) || strStarts "mailto:" (lowerStr l.href) ||
           strStarts "javascript:" (lowerStr l.href) || strStarts "tel:" (lowerStr l.href) ||
           strStarts "data:" (lowerStr l.href) ||
           (strContainsChar (lowerStr l.href) ':' && !strStarts "http:" (lowerStr l.href) &&
            !strStarts "https:" (lowerStr l.href))) = true) :
    resolveURL b l = "" := by
  cases b with
  | none => rfl
  | some base =>
    by_cases hemp : l.href = ""
    · simp [resolveURL, hemp]
    · simp only [resolveURL, hemp, h1, h2]
      simp

/-- C7 witness: a mailto reference is rejected, through the theorem. -/
theorem claim7_witness :
    resolveURL (urlParse "http://example.com/") { href := "mailto:user@example.com", text := "" } = "" :=
  claim7_foreign_scheme_reject (urlParse "http://example.com/")
    { href := "mailto:user@example.com", text := "" } (by decide) (by decide)

/-- C9: a fetch failure (network error, non-2xx status or non-HTML
content type, all of which the oracle maps to none) still completes the
job, with zero submissions and no state change; in the scenario where
the root links to a page whose fetch fails, that page stays in the
final output, the output head and error are untouched, and no error is
returned. -/
theorem claim9_fetch_failure :
    (∀ (cfg : CrawlCfg) (cs : CrawlState) (j : Job), cfg.fetch j.url = none →
      workerEvents cfg cs j = [WEvent.complete] ∧ processJob cfg cs j = (cs, [])) ∧
    buildSitemap "http://a.com/" 3 failBFetch 5 = (["http://a.com/", "http://a.com/b"], none) ∧
    failBFetch "http://a.com/b" = none := by
  refine ⟨?_, by decide, by decide⟩
  intro cfg cs j h
  exact ⟨by simp [workerEvents, h], by simp [processJob, h]⟩

/-- C9 witness: the per-job part of the theorem at a concrete failing
fetch. -/
theorem claim9_witness :
    workerEvents cfgNull { visited := ["u"], output := ["u"] } { url := "u", depth := 0 }
        = [WEvent.complete] ∧
      processJob cfgNull { visited := ["u"], output := ["u"] } { url := "u", depth := 0 }
        = ({ visited := ["u"], output := ["u"] }, []) :=
  claim9_fetch_failure.1 cfgNull { visited := ["u"], output := ["u"] } { url := "u", depth := 0 } rfl

/-- C3: under every worker schedule, the output list of every reachable
crawl state has no duplicate: a URL enters the visited set at most once
(the admission check and the store are one atomic step, as LoadOrStore
is), and a URL is appended to the output only on the first admission. -/
theorem claim3_output_nodup (cfg : CrawlCfg) (s : MState) (h : ReachM cfg s) :
    s.cs.output.Nodup :=
  (reachM_good cfg h).1

/-- C3 witness: the theorem at the initial state of a concrete crawl. -/
theorem claim3_witness : (initM cfgNull).cs.output.Nodup :=
  claim3_output_nodup cfgNull (initM cfgNull) Relation.ReflTransGen.refl

/-- C8: under every worker schedule, every output entry other than the
seed and every queued job other than the seed satisfies the extension
filter, so a resolved URL with an ignored extension never becomes a
crawl job and never appears in the output; in the scenario of a page
linking to style.css and /about, the output holds /about and not
style.css, whose URL fails the filter. -/
theorem claim8_ext_filter :
    (∀ (cfg : CrawlCfg) (s : MState) (u : String), ReachM cfg s → u ∈ s.cs.output →
       u ≠ cfg.startURL → extOKb u = true) ∧
    (∀ (cfg : CrawlCfg) (s : MState) (j : Job), ReachM cfg s → j ∈ s.queue →
       j.url = cfg.startURL ∨ extOKb j.url = true) ∧
    buildSitemap "http://a.com/" 3 cssFetch 5 = (["http://a.com/", "http://a.com/about"], none) ∧
    extOKb "http://a.com/style.css" = false := by
  refine ⟨?_, ?_, by decide, by decide⟩
  · intro cfg s u h hu hne
    exact (reachM_good cfg h).2.2.2.1 u hu hne
  · intro cfg s j h hj
    exact (reachM_good cfg h).2.2.2.2 j hj

/-- C8 witness: the queue part of the theorem at the seeded initial
state of a concrete crawl. -/
theorem claim8_witness :
    ({ url := "http://a.com/", depth := 0 } : Job).url = cfgNull.startURL ∨
      extOKb ({ url := "http://a.com/", depth := 0 } : Job).url = true :=
  claim8_ext_filter.2.1 cfgNull (initM cfgNull) { url := "http://a.com/", depth := 0 }
    Relation.ReflTransGen.refl (by decide)

/-- C10: the start URL is stored in the visited set and appended to the
output before any worker runs, so in every reachable state of every
schedule the output is nonempty and its first element is the start URL;
the concrete crawls with maxDepth 0 and with every fetch failing return
exactly the start URL. -/
theorem claim10_seed_first :
    (∀ cfg : CrawlCfg,
       (initM cfg).cs.output = [cfg.startURL] ∧ (initM cfg).cs.visited = [cfg.startURL]) ∧
    (∀ (cfg : CrawlCfg) (s : MState), ReachM cfg s →
       s.cs.output ≠ [] ∧ s.cs.output.head? = some cfg.startURL) ∧
    buildSitemap "http://a.com/" 0 cssFetch 5 = (["http://a.com/"], none) ∧
    buildSitemap "http://a.com/" 3 noFetch 5 = (["http://a.com/"], none) := by
  refine ⟨fun cfg => ⟨rfl, rfl⟩, ?_, by decide, by decide⟩
  intro cfg s h
  obtain ⟨rest, hr⟩ := (reachM_good cfg h).2.2.1
  rw [hr]
  exact ⟨List.cons_ne_nil _ _, rfl⟩

/-- C10 witness: the reachable-state part of the theorem at the initial
state of a concrete crawl. -/
theorem claim10_witness :
    (initM cfgNull).cs.output ≠ [] ∧ (initM cfgNull).cs.output.head? = some cfgNull.startURL :=
  claim10_seed_first.2.1 cfgNull (initM cfgNull) Relation.ReflTransGen.refl

/-! ## The channel deadlock (C4) -/

/-- The crawl of the two-link site, one worker, so the jobs channel has
capacity one as in the source (make(chan job, numWorkers)). -/
def cfg4 : CrawlCfg :=
  { startURL := "http://a.com/", maxDepth := 3, fetch := twoLinkFetch }

abbrev chanStep (cfg : CrawlCfg) (cap : Nat) (s t : ChanState) : Prop :=
  t ∈ successors cfg cap s

def baseACom : GoURL :=
  { scheme := "http", opq := "", host := "a.com", path := "/", query := "", fragment := "" }

/-- After the sole worker received the seed job. -/
def chanS1 : ChanState :=
  { cs := { visited := ["http://a.com/"], output := ["http://a.com/"] },
    buffer := [],
    workers := [WSt.working 0 baseACom [{ href := "/b", text := "" }, { href := "/c", text := "" }]],
    tasks := 1 }

/-- After the worker admitted /b and sent its job into the buffer,
filling the capacity-one channel. -/
def chanS2 : ChanState :=
  { cs := { visited := ["http://a.com/b", "http://a.com/"],
            output := ["http://a.com/", "http://a.com/b"] },
    buffer := [{ url := "http://a.com/b", depth := 1 }],
    workers := [WSt.working 0 baseACom [{ href := "/c", text := "" }]],
    tasks := 2 }

/-- After the worker admitted /c: the buffer is full, the send blocks,
and no worker is left to receive. -/
def chanDead : ChanState :=
  { cs := { visited := ["http://a.com/c", "http://a.com/b", "http://a.com/"],
            output := ["http://a.com/", "http://a.com/b", "http://a.com/c"] },
    buffer := [{ url := "http://a.com/b", depth := 1 }],
    workers := [WSt.blockedSend { url := "http://a.com/c", depth := 1 } 0 baseACom []],
    tasks := 3 }

/-- C4: the crawl can deadlock on job submission. With one worker (so
the jobs channel has capacity one) on a root page with two fresh
same-host links, the machine reaches a state in which the only worker
is blocked sending into the full buffer, no step is possible, and the
WaitGroup counter is nonzero, so the channel is never closed and the
pool never drains: every worker is blocked sending before any can
receive, which the claim says never happens. -/
theorem claim4_submit_deadlock :
    Relation.ReflTransGen (chanStep cfg4 1) (chanInit cfg4 1) chanDead ∧
    successors cfg4 1 chanDead = [] ∧
    chanDead.tasks = 3 ∧
    chanDead.workers = [WSt.blockedSend { url := "http://a.com/c", depth := 1 } 0 baseACom []] := by
  refine ⟨?_, by decide, by decide, by decide⟩
  have st1 : chanStep cfg4 1 (chanInit cfg4 1) chanS1 := by decide
  have st2 : chanStep cfg4 1 chanS1 chanS2 := by decide
  have st3 : chanStep cfg4 1 chanS2 chanDead := by decide
  exact Relation.ReflTransGen.head st1 (Relation.ReflTransGen.head st2 (Relation.ReflTransGen.single st3))

end Sitemap
